import Mathlib

/-!
Verification of the frp-pong reactive framework (src/index.ts).

The development shallowly embeds the core of the framework:
* the drawing-operation algebra (`DrawOp`, `Draw`, `and`, `all`, the `gen`
  generator traversal),
* the stateful feedback wrapper (`stateful`: identity-prepended reducer
  stream folded with `scan`, `state` key deleted from the output record),
* the driver/runner plumbing (`Driver`, `run`: collecting source
  capabilities, routing output streams to sinks with `NEVER` fallback),
* the DOM driver (`makeDOMDriver`: `querySelector` miss yields `NEVER`),
* the canvas driver backpressure pipeline (`throttleTime(1)` with
  the rxjs default leading-edge configuration),
* the key-tracking helpers (`keyUp` / `keyDown`).

Streams are modelled denotationally: a stream of reducers or draws is the
finite list of values it emitted (timestamped where timing matters), and
record types are association lists keyed by field name, in insertion order,
matching JavaScript `Object.keys` iteration order.
-/

namespace FrpPong

/-! ## Drawing-operation algebra (src/index.ts lines 315-447)

`DrawOp` is the closed set of primitive drawing instructions; `Draw` is
either a primitive op or the binary composition node `And`.  `gen` is the
generator-based depth-first left-to-right traversal: `And.gen` yields all of
`first` then all of `second`; every primitive op yields itself once.
JavaScript numbers are modelled as `Int` (the parameters are opaque payload
for every claim considered here) and canvas styles as `String`. -/

inductive DrawOp where
  | fillRect (x y width height : Int)
  | fillStyle (style : String)
  | strokeStyle (style : String)
  | beginPath
  | clearRect (x y width height : Int)
  | arc (x y r sAngle eAngle : Int) (anticlockwise : Bool)
  | stroke
  | fill
deriving DecidableEq, Repr

inductive Draw where
  | op (o : DrawOp)
  | and (first second : Draw)
deriving DecidableEq, Repr

/-- The `gen` generator traversal flattened to the list of yielded ops:
`And.gen` is `yield* first.gen(); yield* second.gen()`, and each primitive
op class yields itself once. -/
def Draw.gen : Draw → List DrawOp
  | .op o => [o]
  | .and first second => first.gen ++ second.gen

/-- Model of `and(first, second)`: builds the binary composition node. -/
def and (first second : Draw) : Draw := Draw.and first second

/-- Model of `all(draws)`, i.e. `draws.reduce(and)`.  The JavaScript
`Array.prototype.reduce` with no initial value throws a `TypeError` on an
empty array and otherwise left-folds starting from the first element, so it
is modelled in `Except`. -/
def all (draws : List Draw) : Except String Draw :=
  match draws with
  | [] => .error "Reduce of empty array with no initial value"
  | d :: rest => .ok (rest.foldl and d)

/-- Smart constructors mirroring the exported op constructors. -/
def fillRect (x y width height : Int) : Draw := .op (.fillRect x y width height)

def fillStyle (style : String) : Draw := .op (.fillStyle style)

def strokeStyle (style : String) : Draw := .op (.strokeStyle style)

def beginPath : Draw := .op .beginPath

def clearRect (x y width height : Int) : Draw := .op (.clearRect x y width height)

def arc (x y r sAngle eAngle : Int) (anticlockwise : Bool) : Draw :=
  .op (.arc x y r sAngle eAngle anticlockwise)

def stroke : Draw := .op .stroke

def fill : Draw := .op .fill

/-- Left fold of `and` over `rest` starting at `d` traverses as the
concatenation of the individual traversals. -/
theorem gen_foldl_and (rest : List Draw) (d : Draw) :
    (rest.foldl and d).gen = d.gen ++ (rest.map Draw.gen).flatten := by
  induction rest generalizing d with
  | nil => simp
  | cons e rest ih =>
    rw [List.foldl_cons, ih (and d e)]
    simp [and, Draw.gen, List.append_assoc]

/-- C2: the traversal of `and(a, b)` is the traversal of `a` followed by the
traversal of `b`, and for every non-empty sequence of Draws the traversal of
`all(seq)` is the concatenation of the element traversals in original order,
with no omissions, reordering, or deduplication. -/
theorem and_all_traversal_concat :
    (∀ a b : Draw, (and a b).gen = a.gen ++ b.gen) ∧
    (∀ (d : Draw) (rest : List Draw) (res : Draw),
      all (d :: rest) = .ok res →
      res.gen = ((d :: rest).map Draw.gen).flatten) := by
  refine ⟨fun a b => rfl, fun d rest res h => ?_⟩
  have hres : res = rest.foldl and d := by
    simpa [all] using h.symm
  subst hres
  simp [gen_foldl_and, List.map_cons, List.flatten]

/-- Witness for C2 at the concrete sequence of Scenario C:
`all [clearRect(0,0,10,10), fillRect(1,1,2,2)]` traverses clear before
fill. -/
theorem and_all_traversal_concat_witness :
    (and (clearRect 0 0 10 10) (fillRect 1 1 2 2)).gen =
        (clearRect 0 0 10 10).gen ++ (fillRect 1 1 2 2).gen ∧
      (Draw.and (clearRect 0 0 10 10) (fillRect 1 1 2 2)).gen =
        (([clearRect 0 0 10 10, fillRect 1 1 2 2] :
          List Draw).map Draw.gen).flatten :=
  ⟨and_all_traversal_concat.1 (clearRect 0 0 10 10) (fillRect 1 1 2 2),
    and_all_traversal_concat.2 (clearRect 0 0 10 10) [fillRect 1 1 2 2]
      (Draw.and (clearRect 0 0 10 10) (fillRect 1 1 2 2)) rfl⟩

/-- C4: `all` on the empty sequence raises the construction-time
`TypeError` thrown by `reduce` of an empty array with no initial value (it
does not return a Draw), while `all` on any non-empty sequence returns
normally. -/
theorem all_empty_errors_nonempty_ok :
    all [] = .error "Reduce of empty array with no initial value" ∧
    (∀ (d : Draw) (rest : List Draw), ∃ res, all (d :: rest) = .ok res) :=
  ⟨rfl, fun d rest => ⟨rest.foldl and d, rfl⟩⟩

/-- C9: composition is associative up to interpretation, and `all` on a
singleton returns the element itself with no wrapper node. -/
theorem and_assoc_all_singleton :
    (∀ a b c : Draw, (and (and a b) c).gen = (and a (and b c)).gen) ∧
    (∀ d : Draw, all [d] = .ok d) := by
  refine ⟨fun a b c => ?_, fun d => rfl⟩
  simp [and, Draw.gen, List.append_assoc]

/-! ## Stateful feedback wrapper (src/index.ts lines 287-311)

`stateful(initial, component)` feeds the inner component a loopback subject
as its `state` input, takes its `state` output (a stream of reducers),
prepends the identity reducer with `of((s) => s).pipe(concat(sinks.state))`,
folds with `scan((s, f) => f(s), initial)`, subscribes the loopback to the
folded stream, deletes the `state` key from the output record and returns
the rest.

The reducer stream is modelled as the finite list of reducers that the
`state` output of the inner component emitted, in emission order; the state stream the
loopback re-broadcasts is the list of values `scan` emits.  rxjs `scan`
emits one value per input element (the seed itself is not emitted), which
`scanEmits` mirrors. -/

/-- Type of `Reducer<S>`: a pure function `S → S`. -/
def Reducer (S : Type) : Type := S → S

/-- Emissions of rxjs `scan(f, seed)` over the elements of a list: one
output per input, each output the new accumulator; the seed itself is not
emitted. -/
def scanEmits {S A : Type} (f : S → A → S) : S → List A → List S
  | _, [] => []
  | s, a :: rest =>
    let next := f s a
    next :: scanEmits f next rest

/-- The state stream produced inside `stateful(initial, ·)` when the
`state` output of the inner component emits `reducers`, in order: the identity reducer
is prepended via `concat`, then the stream is folded by
`scan((s, f) => f(s), initial)`. -/
def statefulStates {S : Type} (initial : S) (reducers : List (Reducer S)) : List S :=
  scanEmits (fun s f => f s) initial ((fun s => s) :: reducers)

/-- The output record returned by `stateful`: the record of the inner component
with the `state` key deleted (`delete sinks.state`), all other fields
untouched. -/
def statefulOutputs {V : Type} (sinks : List (String × V)) : List (String × V) :=
  sinks.filter (fun kv => kv.1 ≠ "state")

theorem scanEmits_getElem? {S A : Type} (f : S → A → S) :
    ∀ (elems : List A) (s : S) (n : Nat), n < elems.length →
      (scanEmits f s elems)[n]? = some ((elems.take (n + 1)).foldl f s) := by
  intro elems
  induction elems with
  | nil => intro s n hn; simp at hn
  | cons a rest ih =>
    intro s n hn
    cases n with
    | zero => simp [scanEmits]
    | succ m =>
      have hm : m < rest.length := by simpa using hn
      simp [scanEmits, ih (f s a) m hm, List.take_succ_cons]

/-- C1: the state stream of `stateful(initial, component)` first emits
`initial` (the prepended identity reducer applied to the seed) and after
the n-th reducer emits the strict left fold of the first n reducers over
`initial`, order-preserving; concretely, `stateful(0, comp)` with reducers
`[x ↦ x+1, x ↦ x*2]` yields the state sequence `0, 1, 2`. -/
theorem stateful_fold_states {S : Type} (initial : S)
    (reducers : List (Reducer S)) (n : Nat) (hn : n ≤ reducers.length) :
    (statefulStates initial reducers)[0]? = some initial ∧
    (statefulStates initial reducers)[n]? =
      some ((reducers.take n).foldl (fun s f => f s) initial) ∧
    statefulStates (0 : Int)
      [fun x => x + 1, fun x => x * 2] = [0, 1, 2] := by
  refine ⟨?_, ?_, by decide⟩
  · simp [statefulStates, scanEmits]
  · have h : n < ((fun s => s) :: reducers).length := by
      simpa using Nat.lt_succ_of_le hn
    rw [statefulStates, scanEmits_getElem? _ _ _ _ h]
    cases n with
    | zero => simp
    | succ m =>
      rw [List.take_succ_cons]
      rfl

/-- Witness for C1 at Scenario A: `initial = 0`, reducers
`[x ↦ x+1, x ↦ x*2]`, `n = 2`: the fold after both reducers is `2` and the
whole observed sequence is `0, 1, 2`. -/
theorem stateful_fold_states_witness :
    (statefulStates (0 : Int) [fun x => x + 1, fun x => x * 2])[0]? =
        some 0 ∧
      (statefulStates (0 : Int) [fun x => x + 1, fun x => x * 2])[2]? =
        some ((([fun x => x + 1, fun x => x * 2] :
          List (Reducer Int)).take 2).foldl (fun s f => f s) 0) ∧
      statefulStates (0 : Int) [fun x => x + 1, fun x => x * 2] =
        [0, 1, 2] :=
  stateful_fold_states (0 : Int) [fun x => x + 1, fun x => x * 2] 2
    (by decide)

theorem statefulOutputs_lookup {V : Type} (sinks : List (String × V))
    (k : String) :
    (statefulOutputs sinks).lookup k =
      if k = "state" then none else sinks.lookup k := by
  induction sinks with
  | nil => simp [statefulOutputs]
  | cons kv rest ih =>
    obtain ⟨a, b⟩ := kv
    simp only [statefulOutputs] at ih ⊢
    rw [List.filter_cons]
    by_cases ha : a = "state"
    · subst ha
      by_cases hkey : k = "state"
      · subst hkey
        simpa using ih
      · simpa [List.lookup_cons, beq_false_of_ne hkey, hkey] using ih
    · by_cases hkk : k = a
      · subst hkk
        have hks : ¬(k = "state") := ha
        simp [ha, List.lookup_cons, hks]
      · simp [ha, List.lookup_cons, beq_false_of_ne hkk]
        simpa using ih

/-- C5: the output record returned by `stateful(initial, component)` has no
`state` key, and every other key of the output record of the inner component is
present, bound to the same stream value. -/
theorem stateful_outputs_drop_state {V : Type} (sinks : List (String × V))
    (k : String) (hk : k ≠ "state") :
    (statefulOutputs sinks).lookup "state" = none ∧
    (statefulOutputs sinks).lookup k = sinks.lookup k := by
  constructor
  · simp [statefulOutputs_lookup]
  · simp [statefulOutputs_lookup, hk]

/-- Witness for C5 at a concrete record holding a `state` and a `draws`
field. -/
theorem stateful_outputs_drop_state_witness :
    (statefulOutputs [("draws", 1), ("state", 2)]).lookup "state" = none ∧
      (statefulOutputs [("draws", 1), ("state", 2)]).lookup "draws" =
        ([("draws", 1), ("state", 2)] : List (String × Nat)).lookup "draws" :=
  stateful_outputs_drop_state [("draws", 1), ("state", 2)] "draws"
    (by decide)

/-! ## Streams (rxjs `Observable` values that the plumbing routes)

The runner and the DOM driver never inspect the elements flowing through a
stream; they only select, substitute (`NEVER`) and hand streams to receive
functions.  A stream is therefore modelled by how it was built: rxjs
`NEVER`, a `fromEvent(node, event)` attachment, the sampled-dimensions
pipeline, or an arbitrary stream built elsewhere (identified opaquely).
`StreamBeh` is the observable behavior of a stream — what it emits, whether it
errors, whether it completes — under an environment `StreamEnv` assigning
behaviors to the external attachment points.  `NEVER` emits nothing, never
errors and never completes in every environment. -/

structure StreamBeh (α : Type) where
  emits : List α
  errored : Bool
  completed : Bool
deriving DecidableEq, Repr

inductive RxStream (α : Type) where
  | never
  | fromEvent (node : Nat) (event : String)
  | dimSampled (node : Nat) (sampleInterval : Nat)
  | ext (id : Nat)
deriving DecidableEq, Repr

structure StreamEnv (α : Type) where
  eventBeh : Nat → String → StreamBeh α
  dimBeh : Nat → Nat → StreamBeh α
  extBeh : Nat → StreamBeh α

def RxStream.beh {α : Type} (env : StreamEnv α) : RxStream α → StreamBeh α
  | .never => ⟨[], false, false⟩
  | .fromEvent node event => env.eventBeh node event
  | .dimSampled node sampleInterval => env.dimBeh node sampleInterval
  | .ext id => env.extBeh id

/-! ## Driver abstraction and runner (src/index.ts lines 174-285)

A `Driver` is the tagged union of `SourceDriver` (a `provide` capability),
`SinkDriver` (a `receive` function from an output stream to a
completion-signal stream, modelled by the abstract type `C`) and
`FullDriver` (both).  A driver set is the record passed to `run`, modelled
as an association list in `Object.keys` iteration (insertion) order.

`run(drivers)(component)` collects `provide` of every SourceOnly/Full
driver into a `sources` record, invokes the component once on it, and for
every SinkOnly/Full driver pushes `receive(sinks[key] || NEVER)`; the
returned list models the `sunk` array that is then merge-subscribed. -/

inductive Driver (I O C : Type) where
  | sourceOnly (provide : I)
  | sinkOnly (receive : RxStream O → C)
  | full (provide : I) (receive : RxStream O → C)

/-- The `sources` record: `sources[key] = drv.provide` for every driver
tagged SourceOnly or Full, in driver-set order. -/
def runSources {I O C : Type} (drivers : List (String × Driver I O C)) :
    List (String × I) :=
  drivers.filterMap fun kd =>
    match kd.2 with
    | .sourceOnly provide => some (kd.1, provide)
    | .full provide _ => some (kd.1, provide)
    | .sinkOnly _ => none

/-- JavaScript `record[k] || dflt`: the bound value when the key is
present, the fallback otherwise. -/
def lookupOr {β : Type} (record : List (String × β)) (k : String)
    (dflt : β) : β :=
  (record.lookup k).getD dflt

/-- The `sunk` array: `drv.receive(sinks[key] || NEVER)` for every driver
tagged SinkOnly or Full, in driver-set order. -/
def runSinks {I O C : Type} (drivers : List (String × Driver I O C))
    (sinks : List (String × RxStream O)) : List C :=
  drivers.filterMap fun kd =>
    match kd.2 with
    | .sinkOnly receive => some (receive (lookupOr sinks kd.1 .never))
    | .full _ receive => some (receive (lookupOr sinks kd.1 .never))
    | .sourceOnly _ => none

/-- Model of `run(drivers)(component)`: invoke the component once on the collected
sources, then route each named output stream (or `NEVER`) to its sink. -/
def run {I O C : Type} (drivers : List (String × Driver I O C))
    (component : List (String × I) → List (String × RxStream O)) : List C :=
  runSinks drivers (component (runSources drivers))

/-- The (name, receive) pairs of the sink-accepting drivers, in driver-set
order. -/
def sinkReceivers {I O C : Type} (drivers : List (String × Driver I O C)) :
    List (String × (RxStream O → C)) :=
  drivers.filterMap fun kd =>
    match kd.2 with
    | .sinkOnly receive => some (kd.1, receive)
    | .full _ receive => some (kd.1, receive)
    | .sourceOnly _ => none

theorem runSinks_eq_map {I O C : Type}
    (drivers : List (String × Driver I O C))
    (sinks : List (String × RxStream O)) :
    runSinks drivers sinks = (sinkReceivers drivers).map
      (fun kr => kr.2 (lookupOr sinks kr.1 .never)) := by
  induction drivers with
  | nil => rfl
  | cons kd rest ih =>
    obtain ⟨a, d⟩ := kd
    simp only [runSinks, sinkReceivers, List.filterMap_cons] at ih ⊢
    cases d <;> simp [ih]

/-- C3: when a SinkOnly or Full driver named `k` has no matching stream in
the output record of the component, `run` passes its receive function the
`NEVER` stream instead of failing, every sink-accepting driver is still
fed exactly its looked-up stream (with `NEVER` fallback), and `NEVER`
emits nothing, never errors and never completes in every environment. -/
theorem run_missing_output_never {I O C : Type}
    (drivers : List (String × Driver I O C))
    (component : List (String × I) → List (String × RxStream O))
    (k : String) (receive : RxStream O → C)
    (hdrv : (k, Driver.sinkOnly receive) ∈ drivers ∨
      ∃ provide, (k, Driver.full provide receive) ∈ drivers)
    (hmiss : (component (runSources drivers)).lookup k = none) :
    receive RxStream.never ∈ run drivers component ∧
    run drivers component = (sinkReceivers drivers).map
      (fun kr => kr.2
        (lookupOr (component (runSources drivers)) kr.1 .never)) ∧
    (∀ env : StreamEnv O,
      (RxStream.never : RxStream O).beh env = ⟨[], false, false⟩) := by
  refine ⟨?_, runSinks_eq_map drivers _, fun env => rfl⟩
  have hrecv : (k, receive) ∈ sinkReceivers drivers := by
    rcases hdrv with h | ⟨provide, h⟩ <;>
      exact List.mem_filterMap.mpr ⟨_, h, rfl⟩
  rw [run, runSinks_eq_map]
  exact List.mem_map.mpr ⟨(k, receive), hrecv, by simp [lookupOr, hmiss]⟩

/-- Witness for C3: a driver set with a `dom` source and a `draws` sink,
and a component producing no output record entries — the receive
function observes the `NEVER` stream (returning 42 on it). -/
theorem run_missing_output_never_witness :
    (42 : Nat) ∈ run
        [("dom", (Driver.sourceOnly 7 : Driver Nat Nat Nat)),
          ("draws", Driver.sinkOnly (fun s =>
            match s with
            | RxStream.never => 42
            | _ => 0))]
        (fun _ => []) ∧
      (RxStream.never : RxStream Nat).beh
        ⟨fun _ _ => ⟨[], false, false⟩, fun _ _ => ⟨[], false, false⟩,
          fun _ => ⟨[], false, false⟩⟩ = ⟨[], false, false⟩ := by
  have h := run_missing_output_never
    [("dom", (Driver.sourceOnly 7 : Driver Nat Nat Nat)),
      ("draws", Driver.sinkOnly (fun s =>
        match s with
        | RxStream.never => 42
        | _ => 0))]
    (fun _ => []) "draws"
    (fun s =>
      match s with
      | RxStream.never => 42
      | _ => 0)
    (Or.inl (List.mem_cons_of_mem _ (List.mem_cons_self _ _))) rfl
  exact ⟨h.1, h.2.2 _⟩

/-- C6: `run(drivers)(component)` builds the input record with exactly one
entry per SourceOnly/Full driver — keyed by driver name, bound to that
`provide` capability of that driver — no entries for SinkOnly drivers, and the
component is consulted only through its single invocation on that record
(two components agreeing there yield identical runs). -/
theorem run_input_record {I O C : Type}
    (drivers : List (String × Driver I O C)) :
    (∀ k provide, (k, Driver.sourceOnly provide) ∈ drivers →
      (k, provide) ∈ runSources drivers) ∧
    (∀ k provide receive, (k, Driver.full provide receive) ∈ drivers →
      (k, provide) ∈ runSources drivers) ∧
    (∀ k provide, (k, provide) ∈ runSources drivers →
      (k, Driver.sourceOnly provide) ∈ drivers ∨
        ∃ receive, (k, Driver.full provide receive) ∈ drivers) ∧
    (runSources drivers).length = drivers.countP
      (fun kd => match kd.2 with
        | .sinkOnly _ => false
        | _ => true) ∧
    (∀ c₁ c₂, c₁ (runSources drivers) = c₂ (runSources drivers) →
      run drivers c₁ = run drivers c₂) := by
  refine ⟨?_, ?_, ?_, ?_, ?_⟩
  · exact fun k provide h => List.mem_filterMap.mpr ⟨_, h, rfl⟩
  · exact fun k provide receive h => List.mem_filterMap.mpr ⟨_, h, rfl⟩
  · intro k provide h
    rcases List.mem_filterMap.mp h with ⟨⟨k', d⟩, hmem, heq⟩
    cases d with
    | sourceOnly p =>
      simp only [Option.some.injEq, Prod.mk.injEq] at heq
      obtain ⟨hk, hp⟩ := heq
      subst hk; subst hp
      exact Or.inl hmem
    | sinkOnly r => simp at heq
    | full p r =>
      simp only [Option.some.injEq, Prod.mk.injEq] at heq
      obtain ⟨hk, hp⟩ := heq
      subst hk; subst hp
      exact Or.inr ⟨r, hmem⟩
  · induction drivers with
    | nil => rfl
    | cons kd rest ih =>
      obtain ⟨a, d⟩ := kd
      simp only [runSources, List.filterMap_cons] at ih ⊢
      cases d <;> simp [List.countP_cons, ih]
  · intro c₁ c₂ h
    rw [run, run, h]

/-- Witness for C6: the `dom` capability lands in the sources record, the
`draws` sink does not, and two components agreeing on that record produce
the same run. -/
theorem run_input_record_witness :
    ("dom", 7) ∈ runSources
        [("dom", (Driver.sourceOnly 7 : Driver Nat Nat Nat)),
          ("draws", Driver.sinkOnly (fun _ => 0))] ∧
      run [("dom", (Driver.sourceOnly 7 : Driver Nat Nat Nat)),
            ("draws", Driver.sinkOnly (fun _ => 0))]
          (fun record => [("draws", RxStream.ext record.length)]) =
        run [("dom", (Driver.sourceOnly 7 : Driver Nat Nat Nat)),
              ("draws", Driver.sinkOnly (fun _ => 0))]
          (fun _ => [("draws", RxStream.ext 1)]) :=
  ⟨(run_input_record _).1 "dom" 7 (List.mem_cons_self _ _),
    (run_input_record _).2.2.2.2 _ _ rfl⟩

/-! ## DOM driver (src/index.ts lines 493-540)

`makeDOMDriver()` wraps a `DOM` capability in a SourceDriver.  Each
capability method calls `document.querySelector(selector)`; when the
selector matches no element it returns rxjs `NEVER` instead of attaching.
The document is modelled as a partial map from selector strings to node
identifiers; the `sampleInterval` observable passed to `dimensions` is an
opaque stream handle. -/

structure Size2d where
  width : Int
  height : Int
deriving DecidableEq, Repr

structure MouseEvent where
  offsetX : Int
  offsetY : Int
deriving DecidableEq, Repr

structure KeyboardEvent where
  key : String
deriving DecidableEq, Repr

structure DOM where
  mousemove : String → RxStream MouseEvent
  keydown : String → RxStream KeyboardEvent
  keyup : String → RxStream KeyboardEvent
  keypress : String → RxStream KeyboardEvent
  dimensions : String → Nat → RxStream Size2d

/-- Model of `attach(selector, event)`: `fromEvent(node, event)` when
`querySelector` finds a node, `NEVER` otherwise. -/
def attach {α : Type} (doc : String → Option Nat)
    (selector event : String) : RxStream α :=
  match doc selector with
  | some node => .fromEvent node event
  | none => .never

/-- The capability record `makeDOMDriver` builds. `dimensions` maps the
sample interval over the node size (`distinctUntilChanged` pipeline,
abstracted into `dimSampled`) when the node exists, and warns and returns
`NEVER` otherwise. -/
def domCapability (doc : String → Option Nat) : DOM where
  mousemove selector := attach doc selector "mousemove"
  keydown selector := attach doc selector "keydown"
  keyup selector := attach doc selector "keyup"
  keypress selector := attach doc selector "keypress"
  dimensions selector sampleInterval :=
    match doc selector with
    | some node => .dimSampled node sampleInterval
    | none => .never

/-- Model of `makeDOMDriver(): SourceDriver<DOM>`. -/
def makeDOMDriver {O C : Type} (doc : String → Option Nat) :
    Driver DOM O C :=
  Driver.sourceOnly (domCapability doc)

/-- C7: against a selector that matches no element, every capability of
the DOM driver produced by `makeDOMDriver` (mousemove, keydown, keyup,
keypress, dimensions) returns the `NEVER` stream — which emits no value,
never errors and never completes in any environment — rather than
throwing. -/
theorem dom_driver_missing_selector_never (doc : String → Option Nat)
    (selector : String) (h : doc selector = none) :
    (makeDOMDriver (O := Unit) (C := Unit) doc =
      Driver.sourceOnly (domCapability doc)) ∧
    (domCapability doc).mousemove selector = .never ∧
    (domCapability doc).keydown selector = .never ∧
    (domCapability doc).keyup selector = .never ∧
    (domCapability doc).keypress selector = .never ∧
    (∀ sampleInterval,
      (domCapability doc).dimensions selector sampleInterval = .never) ∧
    (∀ (α : Type) (env : StreamEnv α),
      ((RxStream.never : RxStream α).beh env).emits = [] ∧
      ((RxStream.never : RxStream α).beh env).errored = false ∧
      ((RxStream.never : RxStream α).beh env).completed = false) := by
  refine ⟨rfl, ?_, ?_, ?_, ?_, fun sampleInterval => ?_,
      fun α env => ⟨rfl, rfl, rfl⟩⟩ <;>
    simp [domCapability, attach, h]

/-- Witness for C7 at the empty document and the selector `"#main"`. -/
theorem dom_driver_missing_selector_never_witness :
    (domCapability (fun _ => none)).mousemove "#main" = .never ∧
      (domCapability (fun _ => none)).dimensions "#main" 0 = .never :=
  ⟨(dom_driver_missing_selector_never (fun _ => none) "#main" rfl).2.1,
    (dom_driver_missing_selector_never
      (fun _ => none) "#main" rfl).2.2.2.2.2.1 0⟩

/-! ## Key tracking helpers (src/index.ts lines 107-111)

`keyUp(e)(as)` removes every entry equal to `e.key` from the pressed-key
list; `keyDown(e)(as)` is `A.snoc(keyUp(e)(as), e.key)` — remove first,
then append once at the end. -/

def keyUp (e : KeyboardEvent) (as : List String) : List String :=
  as.filter (fun k => k ≠ e.key)

def keyDown (e : KeyboardEvent) (as : List String) : List String :=
  keyUp e as ++ [e.key]

/-- C10: the pressed-key list never accumulates duplicates of a handled
key: `keyUp(e)(as)` contains no occurrence of `e.key`, and `keyDown(e)(as)`
contains exactly one occurrence of `e.key`, as its last element. -/
theorem key_tracking_no_duplicates (e : KeyboardEvent) (as : List String) :
    e.key ∉ keyUp e as ∧
    (keyDown e as).count e.key = 1 ∧
    (keyDown e as).getLast? = some e.key := by
  refine ⟨?_, ?_, ?_⟩
  · simp [keyUp, List.mem_filter]
  · have hnot : e.key ∉ keyUp e as := by simp [keyUp, List.mem_filter]
    simp [keyDown, List.count_append, List.count_eq_zero.mpr hnot]
  · simp [keyDown]

/-! ## Canvas driver backpressure (src/index.ts lines 486-491)

`makeCanvasDriver(el)` installs the sink pipeline
`draws.pipe(observeOn(animationFrameScheduler)).pipe(throttleTime(1))
.pipe(map((d) => draw(el, d)))`.

`observeOn(animationFrameScheduler)` re-delivers each arrival on its
animation frame (modelled by a delivery-time map `frameOf`), and
`throttleTime(1)` with the rxjs default leading-edge configuration emits a
value when no throttle window is active and then ignores every value for
the window duration — the source comments this as "Ensure we only emit
the very first".  `draw(el, d)` walks `d.gen()` to exhaustion, applying
every primitive op in order, modelled by `Draw.gen`.  A stream of draws is
the list of (delivery time, Draw) pairs in arrival order. -/

def throttleGo {α : Type} (dur : Nat) :
    Nat → List (Nat × α) → List (Nat × α)
  | _, [] => []
  | deadline, (t, a) :: rest =>
    if deadline ≤ t then (t, a) :: throttleGo dur (t + dur) rest
    else throttleGo dur deadline rest

/-- rxjs `throttleTime(dur)` with the default configuration — leading
true, trailing false — over timestamped emissions. -/
def throttleTimeLeading {α : Type} (dur : Nat) (xs : List (Nat × α)) :
    List (Nat × α) :=
  throttleGo dur 0 xs

/-- The renders performed by the canvas sink: the throttled,
frame-scheduled draws, each fully interpreted via its `gen` traversal. -/
def canvasSinkRenders (frameOf : Nat → Nat) (draws : List (Nat × Draw)) :
    List (Nat × List DrawOp) :=
  (throttleTimeLeading 1 (draws.map (fun td => (frameOf td.1, td.2)))).map
    (fun td => (td.1, td.2.gen))

theorem throttleGo_sublist {α : Type} (dur : Nat) :
    ∀ (xs : List (Nat × α)) (deadline : Nat),
      (throttleGo dur deadline xs).Sublist xs := by
  intro xs
  induction xs with
  | nil => intro deadline; simp [throttleGo]
  | cons ta rest ih =>
    intro deadline
    obtain ⟨t, a⟩ := ta
    by_cases hd : deadline ≤ t
    · simp only [throttleGo, if_pos hd]
      exact List.Sublist.cons₂ _ (ih (t + dur))
    · simp only [throttleGo, if_neg hd]
      exact List.Sublist.cons _ (ih deadline)

theorem throttleGo_head_le {α : Type} (dur : Nat) :
    ∀ (xs : List (Nat × α)) (deadline : Nat) (p : Nat × α),
      (throttleGo dur deadline xs).head? = some p → deadline ≤ p.1 := by
  intro xs
  induction xs with
  | nil => intro deadline p h; simp [throttleGo] at h
  | cons ta rest ih =>
    intro deadline p h
    obtain ⟨t, a⟩ := ta
    by_cases hd : deadline ≤ t
    · simp only [throttleGo, if_pos hd, List.head?_cons,
        Option.some.injEq] at h
      subst h
      exact hd
    · simp only [throttleGo, if_neg hd] at h
      exact ih deadline p h

theorem throttleGo_chain {α : Type} (dur : Nat) :
    ∀ (xs : List (Nat × α)) (deadline : Nat),
      List.Chain' (fun p q => p.1 + dur ≤ q.1)
        (throttleGo dur deadline xs) := by
  intro xs
  induction xs with
  | nil => intro deadline; simp [throttleGo]
  | cons ta rest ih =>
    intro deadline
    obtain ⟨t, a⟩ := ta
    by_cases hd : deadline ≤ t
    · simp only [throttleGo, if_pos hd]
      refine List.chain'_cons'.mpr ⟨?_, ih (t + dur)⟩
      intro q hq
      exact throttleGo_head_le dur rest (t + dur) q hq
    · simp only [throttleGo, if_neg hd]
      exact ih deadline

theorem throttleGo_drop_all {α : Type} (dur : Nat) :
    ∀ (xs : List (Nat × α)) (deadline : Nat),
      (∀ q ∈ xs, q.1 < deadline) → throttleGo dur deadline xs = [] := by
  intro xs
  induction xs with
  | nil => intro deadline _; rfl
  | cons ta rest ih =>
    intro deadline hq
    obtain ⟨t, a⟩ := ta
    have ht : t < deadline := hq (t, a) (List.mem_cons_self _ _)
    simp only [throttleGo, if_neg (Nat.not_le.mpr ht)]
    exact ih deadline fun q hmem => hq q (List.mem_cons_of_mem _ hmem)

/-- C8 counterexample: two Draws delivered within the same throttle window
(both at time 0).  The pipeline renders the FIRST of them and drops the
newer one, so the rendered Draw is not the latest: the older frame is
rendered in place of the newer one, contradicting "the latest Draw is the
one rendered". -/
theorem canvas_latest_not_rendered :
    canvasSinkRenders (fun t => t)
        [(0, clearRect 0 0 10 10), (0, fillRect 1 1 2 2)] =
      [(0, [DrawOp.clearRect 0 0 10 10])] ∧
    [DrawOp.fillRect 1 1 2 2] ∉
      (canvasSinkRenders (fun t => t)
        [(0, clearRect 0 0 10 10), (0, fillRect 1 1 2 2)]).map Prod.snd := by
  decide

/-- C8 (amended): the canvas sink renders a subsequence of the arriving
Draws in arrival order, each rendered Draw is interpreted in full via its
`gen` traversal, consecutive renders are at least one throttle window
apart (at most one pending render at a time), and when several Draws
arrive while the window of a rendered one is still open, the FIRST Draw of
the window is the one rendered and the later arrivals are dropped. -/
theorem canvas_throttle_first_wins {α : Type} (dur : Nat)
    (xs : List (Nat × α)) (t : Nat) (x : α) (inWindow : List (Nat × α))
    (hwin : ∀ q ∈ inWindow, q.1 < t + dur)
    (frameOf : Nat → Nat) (draws : List (Nat × Draw)) :
    (throttleTimeLeading dur xs).Sublist xs ∧
    List.Chain' (fun p q => p.1 + dur ≤ q.1)
      (throttleTimeLeading dur xs) ∧
    throttleTimeLeading dur ((t, x) :: inWindow) = [(t, x)] ∧
    (∀ p ∈ canvasSinkRenders frameOf draws,
      ∃ td ∈ draws, p.1 = frameOf td.1 ∧ p.2 = td.2.gen) := by
  refine ⟨throttleGo_sublist dur xs 0, throttleGo_chain dur xs 0, ?_, ?_⟩
  · simp only [throttleTimeLeading, throttleGo, if_pos (Nat.zero_le t)]
    rw [throttleGo_drop_all dur inWindow (t + dur) hwin]
  · intro p hp
    rcases List.mem_map.mp hp with ⟨q, hq, hpq⟩
    have hqshift : q ∈ draws.map (fun td => (frameOf td.1, td.2)) :=
      (throttleGo_sublist 1 _ 0).mem hq
    rcases List.mem_map.mp hqshift with ⟨td, htd, hqtd⟩
    exact ⟨td, htd, by rw [← hpq, ← hqtd], by rw [← hpq, ← hqtd]⟩

/-- Witness for the amended C8 claim: two Draw-times in one window — the
first is kept; the kept renders are a sublist of the arrivals. -/
theorem canvas_throttle_first_wins_witness :
    (throttleTimeLeading 1 [((0 : Nat), (5 : Nat)), (0, 6)]).Sublist
        [(0, 5), (0, 6)] ∧
      throttleTimeLeading 1 [((0 : Nat), (5 : Nat)), (0, 6)] = [(0, 5)] :=
  ⟨(canvas_throttle_first_wins 1 [(0, 5), (0, 6)] 0 5 [(0, 6)]
      (by decide) (fun t => t) []).1,
    (canvas_throttle_first_wins 1 [(0, 5), (0, 6)] 0 5 [(0, 6)]
      (by decide) (fun t => t) []).2.2.1⟩

end FrpPong
